import Mathlib

/-! Verification of the tree-annotation engine / type checker in
`src/backend/src/type_check.rs` of the Ende repository.

The Rust source is shallowly embedded: the mutable environment
(`&mut Map<Tag>`) becomes explicit state passing, `Result<T, Vec<String>>`
becomes `Except (List String) T`, and Rust `unreachable!()` panics are
modelled with `Option` (`none` = panic) where a claim depends on them.
The bare AST types (`Term`, `Statement`, `Block`, `Program`,
`FunctionCall`, `Operator`, `Position`) come from the external `ast`
crate, which is not part of the corpus; their shapes are modelled from
the spec (§6) and are pinned exactly by how `type_check.rs` constructs
and destructs them. -/

namespace Ende

/-- Modelled from the spec: a nominal enumeration type, "identified by
name plus an ordered set of variant labels" (mirrors `Enumeration` in
`type_check.rs`, which is in the corpus: a `name` and a `variants` list). -/
structure Enumeration where
  name : String
  variants : List String
deriving DecidableEq, Repr

/-- The closed set of type shapes (`enum Type` in `type_check.rs`).
`Type` is a Lean keyword, hence the name `Ty`. -/
inductive Ty where
  | Forbidden : Ty
  | I32Ty : Ty
  | Enum (en : Enumeration) : Ty
  | FunctionTy (args : List Ty) (ret : Ty) : Ty
deriving Repr

/- Structural equality on `Ty` (the derived `PartialEq`/`Eq` of the Rust
`enum Type`), written out by hand because `Ty` nests `List Ty`. -/
mutual

def Ty.beq : Ty → Ty → Bool
  | .Forbidden, .Forbidden => true
  | .I32Ty, .I32Ty => true
  | .Enum e1, .Enum e2 => decide (e1 = e2)
  | .FunctionTy a1 r1, .FunctionTy a2 r2 => Ty.beqList a1 a2 && Ty.beq r1 r2
  | _, _ => false

def Ty.beqList : List Ty → List Ty → Bool
  | [], [] => true
  | t :: ts, u :: us => Ty.beq t u && Ty.beqList ts us
  | _, _ => false

end

mutual

theorem Ty.beq_iff : ∀ a b : Ty, Ty.beq a b = true ↔ a = b
  | .Forbidden, b => by cases b <;> simp [Ty.beq]
  | .I32Ty, b => by cases b <;> simp [Ty.beq]
  | .Enum e1, b => by cases b <;> simp [Ty.beq]
  | .FunctionTy a1 r1, b => by
      cases b <;> simp [Ty.beq, Ty.beqList_iff a1, Ty.beq_iff r1]

theorem Ty.beqList_iff : ∀ as bs : List Ty, Ty.beqList as bs = true ↔ as = bs
  | [], bs => by cases bs <;> simp [Ty.beqList]
  | t :: ts, bs => by
      cases bs <;> simp [Ty.beqList, Ty.beq_iff t, Ty.beqList_iff ts]

end

instance : DecidableEq Ty := fun a b => decidable_of_iff _ (Ty.beq_iff a b)

/-- Modelled from the spec: "infix operation with an operator symbol"
(§6). The `Operator` type lives in the external `ast` crate; the checker
only clones it and renders it into one diagnostic via `Display`, so a
bare symbol string is a faithful model. -/
structure Operator where
  symbol : String
deriving DecidableEq, Repr

/-- Modelled from the spec: "source-position information" (§1), the
second tag payload. The `Position` type lives in the external `ast`
crate; the checker only clones it, so its exact fields are irrelevant. -/
structure Position where
  line : Nat
  column : Nat
deriving DecidableEq, Repr

/-- Modelled from the spec: the bare function-call head, "a callee name
only — resolved against the environment" (§6); mirrors the corpus's
`FunctionCall { name }` as rebuilt by `untag`. -/
structure FunctionCall where
  name : String
deriving DecidableEq, Repr

/- Modelled from the spec: the bare tree produced by the parser (§6) —
Term (integer literal, variable reference, infix operation, function
call, nested scope block, if/then/else, while, statement wrapper),
Statement (expression-statement, let, let-mutable, assignment,
external declaration), Block (ordered statements plus optional trailing
term). The shapes are pinned by the `untag` implementations in
`type_check.rs`, which construct exactly these variants. The Rust field
`end` of `Block` is a Lean keyword, hence `endTerm`. The constructor
`ExternDecl` is named `Extern` in the source. -/
mutual

inductive Term where
  | Literal (i : Int) : Term
  | Var (name : String) : Term
  | InfixTerm (left : Term) (op : Operator) (right : Term) : Term
  | Call (func : FunctionCall) (args : List Term) : Term
  | Scope (block : Block) : Term
  | If (ifClause : Term) (thenClause : Term) (elseClause : Term) : Term
  | While (cond : Term) (body : Block) : Term
  | Stmt (stmt : Statement) : Term

inductive Statement where
  | TermSemicolon (term : Term) : Statement
  | LetStmt (name : String) (term : Term) : Statement
  | LetMut (name : String) (term : Term) : Statement
  | Mutate (name : String) (term : Term) : Statement
  | ExternDecl (name : String) (ty : Ty) : Statement

inductive Block where
  | mk (stmts : List Statement) (endTerm : Option Term) : Block

end

/-- The bare program node: one top-level block. -/
structure Program where
  main : Block

/-- The tagged function-call head (`TaggedFunctionCall<Tag>`). -/
structure TaggedFunctionCall (Tag : Type) where
  tag : Tag
  name : String
deriving Repr

/- The tagged tree family (`TaggedTerm<Tag>`, `TaggedStatement<Tag>`,
`TaggedBlock<Tag>`): same children as the bare tree, each recursively
tagged, plus one tag value per node — except the `Stmt` wrapper, which
carries no tag of its own in the source. -/
mutual

inductive TaggedTerm (Tag : Type) where
  | Literal (tag : Tag) (i : Int) : TaggedTerm Tag
  | Var (tag : Tag) (name : String) : TaggedTerm Tag
  | InfixTerm (tag : Tag) (left : TaggedTerm Tag) (op : Operator)
      (right : TaggedTerm Tag) : TaggedTerm Tag
  | Call (tag : Tag) (func : TaggedFunctionCall Tag)
      (args : List (TaggedTerm Tag)) : TaggedTerm Tag
  | Scope (tag : Tag) (block : TaggedBlock Tag) : TaggedTerm Tag
  | If (tag : Tag) (ifClause : TaggedTerm Tag) (thenClause : TaggedTerm Tag)
      (elseClause : TaggedTerm Tag) : TaggedTerm Tag
  | While (tag : Tag) (cond : TaggedTerm Tag) (body : TaggedBlock Tag) :
      TaggedTerm Tag
  | Stmt (stmt : TaggedStatement Tag) : TaggedTerm Tag

inductive TaggedStatement (Tag : Type) where
  | TermSemicolon (tag : Tag) (term : TaggedTerm Tag) : TaggedStatement Tag
  | LetStmt (tag : Tag) (name : String) (term : TaggedTerm Tag) :
      TaggedStatement Tag
  | LetMut (tag : Tag) (name : String) (term : TaggedTerm Tag) :
      TaggedStatement Tag
  | Mutate (tag : Tag) (name : String) (term : TaggedTerm Tag) :
      TaggedStatement Tag
  | ExternDecl (tag : Tag) (name : String) (ty : Ty) : TaggedStatement Tag

inductive TaggedBlock (Tag : Type) where
  | mk (tag : Tag) (stmts : List (TaggedStatement Tag))
      (endTerm : Option (TaggedTerm Tag)) : TaggedBlock Tag

end

/-- Field projection for `TaggedBlock` (`stmts` in the Rust struct). -/
def TaggedBlock.stmts {Tag : Type} : TaggedBlock Tag → List (TaggedStatement Tag)
  | .mk _ stmts _ => stmts

/-- Field projection for `TaggedBlock` (`end` in the Rust struct). -/
def TaggedBlock.endTerm {Tag : Type} : TaggedBlock Tag → Option (TaggedTerm Tag)
  | .mk _ _ endTerm => endTerm

/-- The tagged program node (`TaggedProgram<Tag>`). -/
structure TaggedProgram (Tag : Type) where
  tag : Tag
  main : TaggedBlock Tag

/-- Modelled from the spec: the environment, "a scoped, copyable mapping
from identifier to Type" with lookup, insert/overwrite and duplication
and no deletion (§4.2). The Rust `codegen::Map<Tag>` is not part of the
corpus; it is modelled as an association list whose `insert` prepends,
so that `get` always sees the newest binding — observably the same as
hash-map overwrite. Rust's `env.clone()` is value duplication, which in
the state-passing embedding below is simply reusing the same list. -/
abbrev Map (Tag : Type) : Type := List (String × Tag)

/-- Environment lookup (`env.get(name)`): the newest binding wins. -/
def Map.get {Tag : Type} : Map Tag → String → Option Tag
  | [], _ => none
  | (k, v) :: rest, name => if k = name then some v else Map.get rest name

/-- Environment insertion (`env.insert(name, ty)`), overwriting any
older binding as far as `Map.get` can observe. -/
def Map.insert {Tag : Type} (env : Map Tag) (name : String) (v : Tag) :
    Map Tag :=
  (name, v) :: env

/-- The one-variant "Unit" enumeration that the checker builds inline at
three places in the source (`get_tag` on `Stmt`, the `TermSemicolon`
rule, and the tag of a block without trailing term). -/
def unitEnum : Enumeration :=
  { name := "Unit", variants := ["unit"] }

/- Textual rendering of types (`impl Display for Type`). The `Forbidden`
arm of the source is `unreachable!()` — a panic, documented as a checker
bug if ever reached — modelled here by the sentinel string
"<forbidden>", which no genuine rendering can produce. `renderList`
spells out the source's loop pushing "{arg}, " for every parameter
(trailing separator included). -/
mutual

def Ty.render : Ty → String
  | .Forbidden => "<forbidden>"
  | .Enum en => en.name
  | .I32Ty => "I32"
  | .FunctionTy args ret => "(" ++ Ty.renderList args ++ ") -> " ++ Ty.render ret

def Ty.renderList : List Ty → String
  | [] => ""
  | t :: ts => Ty.render t ++ ", " ++ Ty.renderList ts

end

/-- Diagnostic for an unresolvable callee name (`FunctionCall::tag`). -/
def undeclaredFunctionMsg (name : String) : String :=
  "Function " ++ name ++ " is undeclared."

/-- Diagnostic for calling a non-function (`FunctionCall::tag`). -/
def notCallableMsg (name : String) (ty : Ty) : String :=
  name ++ " is called as a function, but it has type " ++ ty.render

/-- Diagnostic for an unbound variable (`Term::tag`, `Var` arm). -/
def undeclaredVariableMsg (name : String) : String :=
  "Undeclared variable " ++ name ++ "."

/-- Diagnostic for non-I32 infix operands (`Term::tag`, `Infix` arm). -/
def operandTypeMismatchMsg (op : Operator) (leftTy rightTy : Ty) : String :=
  "The left-hand-side of " ++ op.symbol ++ " has type " ++ leftTy.render ++
    ", but the right-hand-side of it has type " ++ rightTy.render ++ "."

/-- Diagnostic for one mismatching call argument (`Term::tag`, `Call`
arm); the spec calls this kind `ArgumentTypeMismatch`. -/
def argumentTypeMismatchMsg (expected actual : Ty) : String :=
  "Expect term of type " ++ expected.render ++ ", found term of type " ++
    actual.render ++ "."

/-- Diagnostic for a wrong argument count (`Term::tag`, `Call` arm); the
spec calls this kind `ArityMismatch`. -/
def arityMismatchMsg (name : String) (expected actual : Nat) : String :=
  "Function " ++ name ++ " expects " ++ toString expected ++
    " argument(s), but " ++ toString actual ++ " are provided."

/-- Diagnostic for disagreeing if-branches (`Term::tag`, `If` arm). -/
def branchTypeMismatchMsg (thenTy elseTy : Ty) : String :=
  "The term of the then part has type " ++ thenTy.render ++
    ", but that of the else part has type " ++ elseTy.render ++ "."

/-- Diagnostic for a non-I32 while condition (`Term::tag`, `While` arm). -/
def conditionTypeMismatchMsg : String :=
  "The condition of a while loop should be of type I32"

/-- Tag readout for a tagged call head (`Tagged<Type>` and
`Tagged<Position>` for `TaggedFunctionCall` share this body). -/
def TaggedFunctionCall.get_tag {Tag : Type} (t : TaggedFunctionCall Tag) :
    Tag :=
  t.tag

/-- Erasure for a tagged call head (both payload instances). -/
def TaggedFunctionCall.untag {Tag : Type} (t : TaggedFunctionCall Tag) :
    FunctionCall :=
  { name := t.name }

/-- Tag readout for tagged terms under the `Type` payload
(`impl Tagged<Type> for TaggedTerm<Type>`): every variant returns its
stored tag, except the `Stmt` wrapper, which fabricates the one-variant
"Unit" enumeration. -/
def TaggedTerm.get_tag : TaggedTerm Ty → Ty
  | .Literal tag _ => tag
  | .Var tag _ => tag
  | .InfixTerm tag _ _ _ => tag
  | .Call tag _ _ => tag
  | .Scope tag _ => tag
  | .If tag _ _ _ => tag
  | .While tag _ _ => tag
  | .Stmt _ => .Enum unitEnum

/-- Tag readout for tagged terms under the `Position` payload
(`impl Tagged<Position> for TaggedTerm<Position>`). The `Stmt` arm of
the source is `unreachable!()` — a panic — modelled as `none`; every
other arm returns its stored tag. -/
def TaggedTerm.get_tagPos : TaggedTerm Position → Option Position
  | .Literal tag _ => some tag
  | .Var tag _ => some tag
  | .InfixTerm tag _ _ _ => some tag
  | .Call tag _ _ => some tag
  | .Scope tag _ => some tag
  | .If tag _ _ _ => some tag
  | .While tag _ _ => some tag
  | .Stmt _ => none

/-- Tag readout for tagged statements: every variant returns its stored
tag. The `Type` and `Position` instances of the source have this same
body, so one parametric definition covers both. -/
def TaggedStatement.get_tag {Tag : Type} : TaggedStatement Tag → Tag
  | .TermSemicolon tag _ => tag
  | .LetStmt tag _ _ => tag
  | .LetMut tag _ _ => tag
  | .Mutate tag _ _ => tag
  | .ExternDecl tag _ _ => tag

/-- Tag readout for tagged blocks (both payload instances). -/
def TaggedBlock.get_tag {Tag : Type} : TaggedBlock Tag → Tag
  | .mk tag _ _ => tag

/-- Tag readout for tagged programs (both payload instances). -/
def TaggedProgram.get_tag {Tag : Type} (p : TaggedProgram Tag) : Tag :=
  p.tag

/- Erasure (`untag`) for the tagged tree family. The `Type` and
`Position` instances of the source have identical bodies, so one
parametric definition covers both. `untagList` and `untagStmts` spell
out the source's `iter().map(|x| x.untag()).collect()`. -/
mutual

def TaggedTerm.untag {Tag : Type} : TaggedTerm Tag → Term
  | .Literal _ num => .Literal num
  | .Var _ name => .Var name
  | .InfixTerm _ left op right => .InfixTerm left.untag op right.untag
  | .Call _ func args => .Call func.untag (TaggedTerm.untagList args)
  | .Scope _ block => .Scope block.untag
  | .If _ ifClause thenClause elseClause =>
      .If ifClause.untag thenClause.untag elseClause.untag
  | .While _ cond block => .While cond.untag block.untag
  | .Stmt stmt => .Stmt stmt.untag

def TaggedTerm.untagList {Tag : Type} : List (TaggedTerm Tag) → List Term
  | [] => []
  | t :: ts => t.untag :: TaggedTerm.untagList ts

def TaggedStatement.untag {Tag : Type} : TaggedStatement Tag → Statement
  | .TermSemicolon _ term => .TermSemicolon term.untag
  | .LetStmt _ name term => .LetStmt name term.untag
  | .LetMut _ name term => .LetMut name term.untag
  | .Mutate _ name term => .Mutate name term.untag
  | .ExternDecl _ name ty => .ExternDecl name ty

def TaggedStatement.untagStmts {Tag : Type} :
    List (TaggedStatement Tag) → List Statement
  | [] => []
  | s :: ss => s.untag :: TaggedStatement.untagStmts ss

def TaggedBlock.untag {Tag : Type} : TaggedBlock Tag → Block
  | .mk _ stmts endTerm =>
      .mk (TaggedStatement.untagStmts stmts)
        (match endTerm with
         | some t => some t.untag
         | none => none)

end

/-- Erasure for the tagged program (both payload instances). -/
def TaggedProgram.untag {Tag : Type} (p : TaggedProgram Tag) : Program :=
  { main := p.main.untag }

/-- Checking a function-call head (`impl WithTag<Type> for FunctionCall`):
resolve the callee name in the environment; absent names and names bound
to a non-function type fail with one diagnostic. The Rust function takes
`&mut Map<Type>` but only ever reads it, so the embedding is pure. -/
def FunctionCall.tag (fc : FunctionCall) (env : Map Ty) :
    Except (List String) (TaggedFunctionCall Ty) :=
  match Map.get env fc.name with
  | none => .error [undeclaredFunctionMsg fc.name]
  | some (.FunctionTy args ret) => .ok ⟨.FunctionTy args ret, fc.name⟩
  | some func_ty => .error [notCallableMsg fc.name func_ty]

/- The checking rules (`impl WithTag<Type>` for `Term`, `Statement`,
`Block`). Rust's `&mut Map<Type>` environment becomes explicit state
passing: each rule takes the live environment and returns the resulting
one. A sub-computation run against `&mut env.clone()` in the source
(isolated) appears here as a call whose returned environment is
discarded (`_`); a sub-computation run against `env` itself (threaded)
appears as a call whose returned environment flows onward.
`Term.tagArgsLoop` is the argument loop of the `Call` arm, carrying the
source's `has_error`, `tagged_args` and `errors` accumulators;
`Statement.tagStmts` is the statement loop of `Block::tag`, and
`Block.tagEnd` is the second half of `Block::tag` (the optional trailing
term and the block's tag), split into its own function only so that Lean
generates usable equation lemmas. -/
mutual

def Term.tag : Term → Map Ty → Except (List String) (TaggedTerm Ty × Map Ty)
  | .Literal i, env => .ok (.Literal .I32Ty i, env)
  | .Var str, env =>
      (match Map.get env str with
       | some ty => .ok (.Var ty str, env)
       | none => .error [undeclaredVariableMsg str])
  | .InfixTerm left op right, env =>
      (match Term.tag left env with
       | .error e => .error e
       | .ok (tagged_left, _) =>
         match Term.tag right env with
         | .error e => .error e
         | .ok (tagged_right, env1) =>
           let left_ty := tagged_left.get_tag
           let right_ty := tagged_right.get_tag
           if left_ty = Ty.I32Ty ∧ right_ty = Ty.I32Ty then
             .ok (.InfixTerm left_ty tagged_left op tagged_right, env1)
           else
             .error [operandTypeMismatchMsg op left_ty right_ty])
  | .Call func args, env =>
      (match FunctionCall.tag func env with
       | .error e => .error e
       | .ok typed_func =>
         match typed_func.tag with
         | .FunctionTy expected_args_types expected_ret_ty =>
           let expected_arity := expected_args_types.length
           let actual_arity := args.length
           if expected_arity = actual_arity then
             match Term.tagArgsLoop expected_args_types args env
                 false [] [] with
             | .error e => .error e
             | .ok (tagged_args, errors) =>
               if errors.length = 0 then
                 match FunctionCall.tag func env with
                 | .error e => .error e
                 | .ok tf => .ok (.Call expected_ret_ty tf tagged_args, env)
               else .error errors
           else
             .error [arityMismatchMsg func.name expected_arity actual_arity]
         | _ => .error ["unreachable"])
  | .Scope block, env =>
      (match Block.tag block env with
       | .error e => .error e
       | .ok (tagged_block, env1) =>
           .ok (.Scope tagged_block.get_tag tagged_block, env1))
  | .If ifClause thenClause elseClause, env =>
      (match Term.tag ifClause env with
       | .error e => .error e
       | .ok (tagged_if, _) =>
         match Term.tag thenClause env with
         | .error e => .error e
         | .ok (tagged_then, _) =>
           match Term.tag elseClause env with
           | .error e => .error e
           | .ok (tagged_else, _) =>
             let then_ty := tagged_then.get_tag
             let else_ty := tagged_else.get_tag
             if then_ty = else_ty then
               .ok (.If then_ty tagged_if tagged_then tagged_else, env)
             else
               .error [branchTypeMismatchMsg then_ty else_ty])
  | .While cond block, env =>
      (match Term.tag cond env with
       | .error e => .error e
       | .ok (tagged_cond, _) =>
         let cond_ty := tagged_cond.get_tag
         if cond_ty ≠ Ty.I32Ty then
           .error [conditionTypeMismatchMsg]
         else
           match Block.tag block env with
           | .error e => .error e
           | .ok (tagged_block, env1) =>
               .ok (.While tagged_block.get_tag tagged_cond tagged_block,
                    env1))
  | .Stmt stmt, env =>
      (match Statement.tag stmt env with
       | .error e => .error e
       | .ok (tagged_stmt, env1) => .ok (.Stmt tagged_stmt, env1))

def Term.tagArgsLoop : List Ty → List Term → Map Ty → Bool →
    List (TaggedTerm Ty) → List String →
    Except (List String) (List (TaggedTerm Ty) × List String)
  | expected :: expectedRest, actual :: actualRest, env, has_error,
      tagged_args, errors =>
      (match Term.tag actual env with
       | .error e => .error e
       | .ok (tagged_arg, _) =>
         let tagged_args1 :=
           if has_error then tagged_args else tagged_args ++ [tagged_arg]
         let actual_ty := tagged_arg.get_tag
         if expected ≠ actual_ty then
           Term.tagArgsLoop expectedRest actualRest env true tagged_args1
             (errors ++ [argumentTypeMismatchMsg expected actual_ty])
         else
           Term.tagArgsLoop expectedRest actualRest env has_error
             tagged_args1 errors)
  | _, _, _, _, tagged_args, errors => .ok (tagged_args, errors)

def Statement.tag : Statement → Map Ty →
    Except (List String) (TaggedStatement Ty × Map Ty)
  | .TermSemicolon term, env =>
      (match Term.tag term env with
       | .error e => .error e
       | .ok (tagged_term, _) =>
           .ok (.TermSemicolon (.Enum unitEnum) tagged_term, env))
  | .LetStmt name term, env =>
      (match Term.tag term env with
       | .error e => .error e
       | .ok (tagged_term, _) =>
           .ok (.LetStmt .Forbidden name tagged_term,
                Map.insert env name tagged_term.get_tag))
  | .LetMut name term, env =>
      (match Term.tag term env with
       | .error e => .error e
       | .ok (tagged_term, _) =>
           .ok (.LetMut .Forbidden name tagged_term,
                Map.insert env name tagged_term.get_tag))
  | .Mutate name term, env =>
      (match Term.tag term env with
       | .error e => .error e
       | .ok (tagged_term, _) =>
           .ok (.Mutate .Forbidden name tagged_term, env))
  | .ExternDecl name ty, env =>
      .ok (.ExternDecl .Forbidden name ty, Map.insert env name ty)

def Statement.tagStmts : List Statement → Map Ty →
    Except (List String) (List (TaggedStatement Ty) × Map Ty)
  | [], env => .ok ([], env)
  | s :: rest, env =>
      (match Statement.tag s env with
       | .error e => .error e
       | .ok (ts, env1) =>
         match Statement.tagStmts rest env1 with
         | .error e => .error e
         | .ok (tss, env2) => .ok (ts :: tss, env2))

def Block.tag : Block → Map Ty →
    Except (List String) (TaggedBlock Ty × Map Ty)
  | .mk stmts endTerm, env =>
      (match Statement.tagStmts stmts env with
       | .error e => .error e
       | .ok (tagged_stmts, env1) => Block.tagEnd tagged_stmts endTerm env1)

def Block.tagEnd : List (TaggedStatement Ty) → Option Term → Map Ty →
    Except (List String) (TaggedBlock Ty × Map Ty)
  | tagged_stmts, some term, env1 =>
      (match Term.tag term env1 with
       | .error e => .error e
       | .ok (tagged_end, env2) =>
           .ok (⟨tagged_end.get_tag, tagged_stmts, some tagged_end⟩, env2))
  | tagged_stmts, none, env1 =>
      .ok (⟨.Enum unitEnum, tagged_stmts, none⟩, env1)

end

/-- Checking a program (`impl WithTag<Type> for Program`): check the one
top-level block against the given environment; the program node itself
is tagged `Forbidden`. -/
def Program.tag (p : Program) (env : Map Ty) :
    Except (List String) (TaggedProgram Ty × Map Ty) :=
  match Block.tag p.main env with
  | .error e => .error e
  | .ok (tagged_main, env1) => .ok (⟨.Forbidden, tagged_main⟩, env1)

/-- Observer used to state the argument-checking claims: tag every
argument in isolation against the same environment, exactly as the
source's argument loop does via `actual.tag(&mut env.clone())`, and
return all tagged arguments when every one of them succeeds. -/
def Term.tagArgsAll : List Term → Map Ty → Option (List (TaggedTerm Ty))
  | [], _ => some []
  | a :: rest, env =>
      (match Term.tag a env with
       | .error _ => none
       | .ok (ta, _) =>
         match Term.tagArgsAll rest env with
         | none => none
         | some tas => some (ta :: tas))

/-- Observer following the spec's words (§4.5): the pairs of declared
positional parameter type and inferred argument type at the positions
where the two differ, in argument order. -/
def mismatchedPairs : List Ty → List (TaggedTerm Ty) → List (Ty × Ty)
  | exp :: expRest, ta :: taRest =>
      if exp ≠ ta.get_tag then
        (exp, ta.get_tag) :: mismatchedPairs expRest taRest
      else
        mismatchedPairs expRest taRest
  | _, _ => []

/-! Theorems about the embedded checker. -/

/-- C10: the non-`FunctionTy` fallback after a successful callee
resolution is unreachable. Whenever `FunctionCall.tag` succeeds, the
returned tag is a `FunctionTy` value, so the `Call` arm's destructuring
of that tag cannot hit its panic branch; resolution fails with one
diagnostic for an absent name and for a name bound to a non-function
type. -/
theorem claim_C10 :
    (∀ (fc : FunctionCall) (env : Map Ty) (tfc : TaggedFunctionCall Ty),
       FunctionCall.tag fc env = .ok tfc →
       ∃ ps r, tfc.tag = Ty.FunctionTy ps r)
  ∧ (∀ (fc : FunctionCall) (env : Map Ty),
       Map.get env fc.name = none →
       FunctionCall.tag fc env = .error [undeclaredFunctionMsg fc.name])
  ∧ (∀ (fc : FunctionCall) (env : Map Ty) (ty : Ty),
       Map.get env fc.name = some ty →
       (∀ ps r, ty ≠ Ty.FunctionTy ps r) →
       FunctionCall.tag fc env = .error [notCallableMsg fc.name ty]) := by
  refine ⟨?_, ?_, ?_⟩
  · intro fc env tfc h
    unfold FunctionCall.tag at h
    cases hget : Map.get env fc.name with
    | none => rw [hget] at h; exact absurd h (by simp)
    | some ty =>
        rw [hget] at h
        cases ty with
        | FunctionTy ps r =>
            simp at h
            exact ⟨ps, r, by rw [← h]⟩
        | Forbidden => exact absurd h (by simp)
        | I32Ty => exact absurd h (by simp)
        | Enum en => exact absurd h (by simp)
  · intro fc env hget
    unfold FunctionCall.tag
    rw [hget]
  · intro fc env ty hget hne
    unfold FunctionCall.tag
    rw [hget]
    cases ty with
    | FunctionTy ps r => exact absurd rfl (hne ps r)
    | Forbidden => rfl
    | I32Ty => rfl
    | Enum en => rfl

/-- C10 witness: a concrete environment binding `f` to a function type,
an environment where `f` is absent, and one binding `f` to `I32`. -/
theorem claim_C10_witness :
    (∃ ps r,
      TaggedFunctionCall.tag
        (⟨Ty.FunctionTy [Ty.I32Ty] Ty.I32Ty, "f"⟩ : TaggedFunctionCall Ty) =
        Ty.FunctionTy ps r)
  ∧ FunctionCall.tag ⟨"f"⟩ ([] : Map Ty) =
      .error [undeclaredFunctionMsg "f"]
  ∧ FunctionCall.tag ⟨"f"⟩ ([("f", Ty.I32Ty)] : Map Ty) =
      .error [notCallableMsg "f" Ty.I32Ty] := by
  refine ⟨?_, ?_, ?_⟩
  · exact claim_C10.1 ⟨"f"⟩ [("f", Ty.FunctionTy [Ty.I32Ty] Ty.I32Ty)] _
      (by simp [FunctionCall.tag, Map.get])
  · exact claim_C10.2.1 ⟨"f"⟩ [] rfl
  · exact claim_C10.2.2 ⟨"f"⟩ [("f", Ty.I32Ty)] Ty.I32Ty
      (by simp [Map.get]) (by intro ps r h; cases h)

/-- C3: a call whose callee resolves to a function type but whose
argument count differs from the declared parameter count fails with
exactly the singleton `ArityMismatch` diagnostic — in particular no
per-argument diagnostic is produced, so a single call never reports both
an `ArityMismatch` and an `ArgumentTypeMismatch`. -/
theorem claim_C3 :
    ∀ (func : FunctionCall) (args : List Term) (env : Map Ty)
      (expected : List Ty) (ret : Ty),
      Map.get env func.name = some (Ty.FunctionTy expected ret) →
      expected.length ≠ args.length →
      Term.tag (.Call func args) env =
        .error [arityMismatchMsg func.name expected.length args.length] := by
  intro func args env expected ret hget hne
  unfold Term.tag
  simp [FunctionCall.tag, hget, hne]

/-- C3 witness: `f` declared with two `I32` parameters, called with one
argument. -/
theorem claim_C3_witness :
    Term.tag (.Call ⟨"f"⟩ [.Literal 1])
        ([("f", Ty.FunctionTy [Ty.I32Ty, Ty.I32Ty] Ty.I32Ty)] : Map Ty) =
      .error [arityMismatchMsg "f" 2 1] :=
  claim_C3 ⟨"f"⟩ [.Literal 1] [("f", Ty.FunctionTy [Ty.I32Ty, Ty.I32Ty] Ty.I32Ty)]
    [Ty.I32Ty, Ty.I32Ty] Ty.I32Ty (by simp [Map.get]) (by decide)

/-- C7: checking an assignment checks the assigned term against a
duplicate of the environment (the term is checked against the same
`env`, and the environment it produces is discarded), performs no check
against the target variable's recorded type (the equation holds for
every `env`, whatever it binds `name` to, and never consults
`Map.get env name`), returns the live environment unchanged, and tags
the statement `Forbidden`. -/
theorem claim_C7 :
    ∀ (name : String) (term : Term) (env : Map Ty) (tt : TaggedTerm Ty)
      (env1 : Map Ty),
      Term.tag term env = .ok (tt, env1) →
      Statement.tag (.Mutate name term) env =
        .ok (.Mutate Ty.Forbidden name tt, env) := by
  intro name term env tt env1 h
  unfold Statement.tag
  rw [h]

/-- C7 witness: `x := 1` in an environment where `x` is recorded with a
non-`I32` type; the assigned term's type is not checked against it, the
environment is unchanged, and the tag is `Forbidden`. -/
theorem claim_C7_witness :
    Statement.tag (.Mutate "x" (.Literal 1))
        ([("x", Ty.Enum unitEnum)] : Map Ty) =
      .ok (.Mutate Ty.Forbidden "x" (.Literal Ty.I32Ty 1),
           [("x", Ty.Enum unitEnum)]) :=
  claim_C7 "x" (.Literal 1) [("x", Ty.Enum unitEnum)] (.Literal Ty.I32Ty 1)
    [("x", Ty.Enum unitEnum)] rfl

/-- C8: an assignment never fails because of its target name — the
target is never looked up, so even when it is absent from the
environment the assignment succeeds (no `UndeclaredIdentifier`
diagnostic for an assignment target), provided the right-hand term
itself checks. -/
theorem claim_C8 :
    ∀ (name : String) (term : Term) (env : Map Ty) (tt : TaggedTerm Ty)
      (env1 : Map Ty),
      Map.get env name = none →
      Term.tag term env = .ok (tt, env1) →
      Statement.tag (.Mutate name term) env =
        .ok (.Mutate Ty.Forbidden name tt, env) := by
  intro name term env tt env1 _ h
  unfold Statement.tag
  rw [h]

/-- C8 witness: `x := 1` in the empty environment (`x` undeclared)
succeeds. -/
theorem claim_C8_witness :
    Statement.tag (.Mutate "x" (.Literal 1)) ([] : Map Ty) =
      .ok (.Mutate Ty.Forbidden "x" (.Literal Ty.I32Ty 1), []) :=
  claim_C8 "x" (.Literal 1) [] (.Literal Ty.I32Ty 1) [] rfl rfl

/-- C9: under the `Type` payload, `get_tag` on a statement-wrapper term
returns the one-variant "Unit" enumeration regardless of the wrapped
statement's own tag; hence a successfully checked block whose trailing
term is a statement wrapper is tagged "Unit", never `Forbidden` — even
though `let`, assignment and external-declaration statements themselves
carry tag `Forbidden`. -/
theorem claim_C9 :
    (∀ s : TaggedStatement Ty,
       TaggedTerm.get_tag (.Stmt s) = .Enum unitEnum)
  ∧ (∀ (stmts : List Statement) (s : Statement) (env : Map Ty)
       (tb : TaggedBlock Ty) (env' : Map Ty),
       Block.tag (.mk stmts (some (.Stmt s))) env = .ok (tb, env') →
       tb.get_tag = .Enum unitEnum ∧ tb.get_tag ≠ Ty.Forbidden)
  ∧ (∀ (name : String) (term : Term) (env : Map Ty)
       (ts : TaggedStatement Ty) (env' : Map Ty),
       Statement.tag (.LetStmt name term) env = .ok (ts, env') →
       ts.get_tag = Ty.Forbidden)
  ∧ (∀ (name : String) (term : Term) (env : Map Ty)
       (ts : TaggedStatement Ty) (env' : Map Ty),
       Statement.tag (.Mutate name term) env = .ok (ts, env') →
       ts.get_tag = Ty.Forbidden)
  ∧ (∀ (name : String) (ty : Ty) (env : Map Ty)
       (ts : TaggedStatement Ty) (env' : Map Ty),
       Statement.tag (.ExternDecl name ty) env = .ok (ts, env') →
       ts.get_tag = Ty.Forbidden) := by
  refine ⟨fun s => rfl, ?_, ?_, ?_, ?_⟩
  · intro stmts s env tb env' h
    unfold Block.tag at h
    cases hs : Statement.tagStmts stmts env with
    | error e => rw [hs] at h; exact absurd h (by simp)
    | ok p =>
        obtain ⟨tss, env1⟩ := p
        rw [hs] at h
        simp only at h
        unfold Block.tagEnd at h
        cases ht : Term.tag (.Stmt s) env1 with
        | error e => rw [ht] at h; exact absurd h (by simp)
        | ok q =>
            obtain ⟨te, env2⟩ := q
            rw [ht] at h
            simp only [Except.ok.injEq, Prod.mk.injEq] at h
            have hte : ∃ ts2, te = TaggedTerm.Stmt ts2 := by
              unfold Term.tag at ht
              cases hst : Statement.tag s env1 with
              | error e => rw [hst] at ht; exact absurd ht (by simp)
              | ok r =>
                  obtain ⟨ts2, env3⟩ := r
                  rw [hst] at ht
                  simp only [Except.ok.injEq, Prod.mk.injEq] at ht
                  exact ⟨ts2, ht.1.symm⟩
            obtain ⟨ts2, hts2⟩ := hte
            rw [← h.1, hts2]
            exact ⟨rfl, by simp [TaggedBlock.get_tag, TaggedTerm.get_tag]⟩
  · intro name term env ts env' h
    unfold Statement.tag at h
    cases ht : Term.tag term env with
    | error e => rw [ht] at h; exact absurd h (by simp)
    | ok p =>
        obtain ⟨tt, env1⟩ := p
        rw [ht] at h
        simp only [Except.ok.injEq, Prod.mk.injEq] at h
        rw [← h.1]
        rfl
  · intro name term env ts env' h
    unfold Statement.tag at h
    cases ht : Term.tag term env with
    | error e => rw [ht] at h; exact absurd h (by simp)
    | ok p =>
        obtain ⟨tt, env1⟩ := p
        rw [ht] at h
        simp only [Except.ok.injEq, Prod.mk.injEq] at h
        rw [← h.1]
        rfl
  · intro name ty env ts env' h
    unfold Statement.tag at h
    simp only [Except.ok.injEq, Prod.mk.injEq] at h
    rw [← h.1]
    rfl

/-- C9 witness: a block whose only content is the statement-wrapper
trailing term `x := 2`, checked in the empty environment, is tagged with
the "Unit" enumeration even though the wrapped assignment statement
itself is tagged `Forbidden`. -/
theorem claim_C9_witness :
    TaggedTerm.get_tag
        (.Stmt (.Mutate Ty.Forbidden "x" (.Literal Ty.I32Ty 2))) =
      .Enum unitEnum
  ∧ ∀ (tb : TaggedBlock Ty) (env' : Map Ty),
      Block.tag (.mk [] (some (.Stmt (.Mutate "x" (.Literal 2)))))
          ([] : Map Ty) = .ok (tb, env') →
      tb.get_tag = .Enum unitEnum ∧ tb.get_tag ≠ Ty.Forbidden :=
  ⟨claim_C9.1 (.Mutate Ty.Forbidden "x" (.Literal Ty.I32Ty 2)),
   fun tb env' h =>
     claim_C9.2.1 [] (.Mutate "x" (.Literal 2)) [] tb env' h⟩

/-- Helper: prepending an already-tagged statement to the accumulated
list commutes with `Block.tagEnd`. -/
theorem tagEnd_cons (x : TaggedStatement Ty) (tss : List (TaggedStatement Ty))
    (endTerm : Option Term) (env : Map Ty) :
    Block.tagEnd (x :: tss) endTerm env =
      match Block.tagEnd tss endTerm env with
      | .error e => .error e
      | .ok (tb, env2) =>
          .ok (⟨tb.get_tag, x :: tb.stmts, tb.endTerm⟩, env2) := by
  cases endTerm with
  | none =>
      simp [Block.tagEnd, TaggedBlock.get_tag, TaggedBlock.stmts,
        TaggedBlock.endTerm]
  | some term =>
      rw [Block.tagEnd, Block.tagEnd]
      cases ht : Term.tag term env with
      | error e => simp
      | ok p =>
          obtain ⟨te, env2⟩ := p
          simp [TaggedBlock.get_tag, TaggedBlock.stmts, TaggedBlock.endTerm]

/-- C4: the environment-propagation table. A `let` (and `let mut`)
checks its bound term against a duplicate of the environment and then
inserts the binding into the live environment; a block threads one live
environment through its statements and trailing term and hands the final
environment to its caller, so the binding is visible to everything after
it; a while loop's body and an infix right operand are likewise threaded
(their resulting environment is the rule's resulting environment), while
an infix left operand and a while condition are isolated (the
environments they produce are discarded and the next sub-computation
runs against the original environment); an `if` term and a function call
return the environment they were given unchanged, so bindings made in an
if condition, either branch, or a call argument never escape. -/
theorem claim_C4 :
    (∀ (name : String) (term : Term) (env : Map Ty) (tt : TaggedTerm Ty)
       (env1 : Map Ty),
       Term.tag term env = .ok (tt, env1) →
       Statement.tag (.LetStmt name term) env =
         .ok (.LetStmt Ty.Forbidden name tt,
              Map.insert env name tt.get_tag))
  ∧ (∀ (name : String) (term : Term) (env : Map Ty) (tt : TaggedTerm Ty)
       (env1 : Map Ty),
       Term.tag term env = .ok (tt, env1) →
       Statement.tag (.LetMut name term) env =
         .ok (.LetMut Ty.Forbidden name tt,
              Map.insert env name tt.get_tag))
  ∧ (∀ (s : Statement) (rest : List Statement) (endTerm : Option Term)
       (env : Map Ty) (ts : TaggedStatement Ty) (env1 : Map Ty),
       Statement.tag s env = .ok (ts, env1) →
       Block.tag (.mk (s :: rest) endTerm) env =
         match Block.tag (.mk rest endTerm) env1 with
         | .error e => .error e
         | .ok (tb, env2) =>
             .ok (⟨tb.get_tag, ts :: tb.stmts, tb.endTerm⟩, env2))
  ∧ (∀ (term : Term) (env : Map Ty),
       Block.tag (.mk [] (some term)) env =
         match Term.tag term env with
         | .error e => .error e
         | .ok (tt, env2) => .ok (⟨tt.get_tag, [], some tt⟩, env2))
  ∧ (∀ (cond : Term) (body : Block) (env : Map Ty) (tc : TaggedTerm Ty)
       (ec : Map Ty) (tb : TaggedBlock Ty) (eb : Map Ty),
       Term.tag cond env = .ok (tc, ec) →
       tc.get_tag = Ty.I32Ty →
       Block.tag body env = .ok (tb, eb) →
       Term.tag (.While cond body) env =
         .ok (.While tb.get_tag tc tb, eb))
  ∧ (∀ (left : Term) (op : Operator) (right : Term) (env : Map Ty)
       (tl : TaggedTerm Ty) (el : Map Ty) (tr : TaggedTerm Ty)
       (er : Map Ty),
       Term.tag left env = .ok (tl, el) →
       Term.tag right env = .ok (tr, er) →
       tl.get_tag = Ty.I32Ty →
       tr.get_tag = Ty.I32Ty →
       Term.tag (.InfixTerm left op right) env =
         .ok (.InfixTerm Ty.I32Ty tl op tr, er))
  ∧ (∀ (c t e : Term) (env : Map Ty) (tc : TaggedTerm Ty) (ec : Map Ty)
       (tt : TaggedTerm Ty) (et : Map Ty) (te : TaggedTerm Ty) (ee : Map Ty),
       Term.tag c env = .ok (tc, ec) →
       Term.tag t env = .ok (tt, et) →
       Term.tag e env = .ok (te, ee) →
       tt.get_tag = te.get_tag →
       Term.tag (.If c t e) env = .ok (.If tt.get_tag tc tt te, env))
  ∧ (∀ (func : FunctionCall) (args : List Term) (env : Map Ty)
       (r : TaggedTerm Ty) (env' : Map Ty),
       Term.tag (.Call func args) env = .ok (r, env') →
       Term.tag (.Call func args) env = .ok (r, env)) := by
  refine ⟨?_, ?_, ?_, ?_, ?_, ?_, ?_, ?_⟩
  · intro name term env tt env1 h
    rw [Statement.tag, h]
  · intro name term env tt env1 h
    rw [Statement.tag, h]
  · intro s rest endTerm env ts env1 h
    rw [Block.tag, Block.tag, Statement.tagStmts, h]
    simp only
    cases hrest : Statement.tagStmts rest env1 with
    | error e => simp
    | ok p =>
        obtain ⟨tss, env2⟩ := p
        simp only
        exact tagEnd_cons ts tss endTerm env2
  · intro term env
    rw [Block.tag, Statement.tagStmts]
    simp only
    rw [Block.tagEnd]
  · intro cond body env tc ec tb eb hc htag hb
    rw [Term.tag, hc]
    simp only [htag]
    rw [if_neg (by simp), hb]
  · intro left op right env tl el tr er hl hr htl htr
    rw [Term.tag, hl, hr]
    simp only [htl, htr]
    simp
  · intro c t e env tc ec tt et te ee hc hthen helse heq
    rw [Term.tag, hc, hthen, helse]
    simp only
    rw [if_pos heq]
  · intro func args env r env' h
    have henv : env' = env := by
      rw [Term.tag] at h
      cases hf : FunctionCall.tag func env with
      | error e => rw [hf] at h; exact absurd h (by simp)
      | ok tf =>
          rw [hf] at h
          simp only at h
          cases htag : tf.tag with
          | FunctionTy expected ret =>
              rw [htag] at h
              simp only at h
              by_cases harity : expected.length = args.length
              · rw [if_pos harity] at h
                cases hloop :
                    Term.tagArgsLoop expected args env false [] [] with
                | error e => rw [hloop] at h; exact absurd h (by simp)
                | ok p =>
                    obtain ⟨tagged_args, errors⟩ := p
                    rw [hloop] at h
                    simp only at h
                    by_cases herr : errors.length = 0
                    · rw [if_pos herr] at h
                      simp only [Except.ok.injEq, Prod.mk.injEq] at h
                      exact h.2.symm
                    · rw [if_neg herr] at h; exact absurd h (by simp)
              · rw [if_neg harity] at h; exact absurd h (by simp)
          | Forbidden => rw [htag] at h; exact absurd h (by simp)
          | I32Ty => rw [htag] at h; exact absurd h (by simp)
          | Enum en => rw [htag] at h; exact absurd h (by simp)
    rw [h, henv]

/-- C4 witness: concrete instances of the propagation table — `let x = 1`
inserts `x ↦ I32` into the live environment; a block whose first
statement is that `let` checks the trailing term `x` against the
extended environment and returns it to the caller; `while 1 { let z = 5; }`
returns the body's environment; `{ let a = 1; 2 } + 2` returns the right
operand's environment; a successful `if` and call return their input
environment unchanged. -/
theorem claim_C4_witness :
    Statement.tag (.LetStmt "x" (.Literal 1)) ([] : Map Ty) =
      .ok (.LetStmt Ty.Forbidden "x" (.Literal Ty.I32Ty 1), [("x", Ty.I32Ty)])
  ∧ Block.tag (.mk [.LetStmt "x" (.Literal 1)] (some (.Var "x")))
        ([] : Map Ty) =
      (match Block.tag (.mk [] (some (.Var "x"))) ([("x", Ty.I32Ty)]) with
       | .error e => .error e
       | .ok (tb, env2) =>
           .ok (⟨tb.get_tag,
                 .LetStmt Ty.Forbidden "x" (.Literal Ty.I32Ty 1) :: tb.stmts,
                 tb.endTerm⟩, env2))
  ∧ Term.tag (.While (.Literal 1) (.mk [.LetStmt "z" (.Literal 5)] none))
        ([] : Map Ty) =
      .ok (.While (.Enum unitEnum) (.Literal Ty.I32Ty 1)
             ⟨.Enum unitEnum, [.LetStmt Ty.Forbidden "z" (.Literal Ty.I32Ty 5)],
              none⟩,
           [("z", Ty.I32Ty)])
  ∧ Term.tag
        (.InfixTerm (.Scope (.mk [.LetStmt "a" (.Literal 1)]
            (some (.Literal 2)))) ⟨"+"⟩ (.Literal 2)) ([] : Map Ty) =
      .ok (.InfixTerm Ty.I32Ty
             (.Scope Ty.I32Ty
               ⟨Ty.I32Ty, [.LetStmt Ty.Forbidden "a" (.Literal Ty.I32Ty 1)],
                some (.Literal Ty.I32Ty 2)⟩)
             ⟨"+"⟩ (.Literal Ty.I32Ty 2),
           ([] : Map Ty))
  ∧ Term.tag (.If (.Literal 1) (.Literal 2) (.Literal 3)) ([] : Map Ty) =
      .ok (.If Ty.I32Ty (.Literal Ty.I32Ty 1) (.Literal Ty.I32Ty 2)
             (.Literal Ty.I32Ty 3), [])
  ∧ Term.tag (.Call ⟨"f"⟩ [])
        ([("f", Ty.FunctionTy [] Ty.I32Ty)] : Map Ty) =
      .ok (.Call Ty.I32Ty ⟨Ty.FunctionTy [] Ty.I32Ty, "f"⟩ [],
           [("f", Ty.FunctionTy [] Ty.I32Ty)]) := by
  refine ⟨?_, ?_, ?_, ?_, ?_, ?_⟩
  · exact claim_C4.1 "x" (.Literal 1) [] (.Literal Ty.I32Ty 1) [] rfl
  · exact claim_C4.2.2.1 (.LetStmt "x" (.Literal 1)) [] (some (.Var "x")) []
      (.LetStmt Ty.Forbidden "x" (.Literal Ty.I32Ty 1)) [("x", Ty.I32Ty)]
      (claim_C4.1 "x" (.Literal 1) [] (.Literal Ty.I32Ty 1) [] rfl)
  · exact claim_C4.2.2.2.2.1 (.Literal 1) (.mk [.LetStmt "z" (.Literal 5)] none)
      [] (.Literal Ty.I32Ty 1) []
      ⟨.Enum unitEnum, [.LetStmt Ty.Forbidden "z" (.Literal Ty.I32Ty 5)], none⟩
      [("z", Ty.I32Ty)] rfl rfl rfl
  · exact claim_C4.2.2.2.2.2.1 (.Scope (.mk [.LetStmt "a" (.Literal 1)]
        (some (.Literal 2)))) ⟨"+"⟩ (.Literal 2) []
      (.Scope Ty.I32Ty ⟨Ty.I32Ty,
         [.LetStmt Ty.Forbidden "a" (.Literal Ty.I32Ty 1)],
         some (.Literal Ty.I32Ty 2)⟩) [("a", Ty.I32Ty)]
      (.Literal Ty.I32Ty 2) [] rfl rfl rfl rfl
  · exact claim_C4.2.2.2.2.2.2.1 (.Literal 1) (.Literal 2) (.Literal 3) []
      (.Literal Ty.I32Ty 1) [] (.Literal Ty.I32Ty 2) []
      (.Literal Ty.I32Ty 3) [] rfl rfl rfl rfl
  · exact claim_C4.2.2.2.2.2.2.2 ⟨"f"⟩ []
      [("f", Ty.FunctionTy [] Ty.I32Ty)]
      (.Call Ty.I32Ty ⟨Ty.FunctionTy [] Ty.I32Ty, "f"⟩ [])
      [("f", Ty.FunctionTy [] Ty.I32Ty)] rfl

/-- C5: checking is fail-fast outside the function-call argument loop —
whenever a sub-computation of a rule fails (a block statement, the
trailing term, an operand, a branch, a condition, the callee
resolution, or a wrapped statement), the enclosing rule fails and
returns exactly the sub-computation's diagnostic list, with no wrapping
or additions by intermediate levels. That no tagged tree is ever paired
with diagnostics is structural in the embedding: `tag` returns an
`Except`, whose `ok` (tagged tree) and `error` (diagnostics) outcomes
are mutually exclusive by construction, mirroring Rust's `Result`. -/
theorem claim_C5 :
    (∀ (left : Term) (op : Operator) (right : Term) (env : Map Ty)
       (e : List String),
       Term.tag left env = .error e →
       Term.tag (.InfixTerm left op right) env = .error e)
  ∧ (∀ (left : Term) (op : Operator) (right : Term) (env : Map Ty)
       (tl : TaggedTerm Ty) (el : Map Ty) (e : List String),
       Term.tag left env = .ok (tl, el) →
       Term.tag right env = .error e →
       Term.tag (.InfixTerm left op right) env = .error e)
  ∧ (∀ (func : FunctionCall) (args : List Term) (env : Map Ty)
       (e : List String),
       FunctionCall.tag func env = .error e →
       Term.tag (.Call func args) env = .error e)
  ∧ (∀ (block : Block) (env : Map Ty) (e : List String),
       Block.tag block env = .error e →
       Term.tag (.Scope block) env = .error e)
  ∧ (∀ (c t el : Term) (env : Map Ty) (e : List String),
       Term.tag c env = .error e →
       Term.tag (.If c t el) env = .error e)
  ∧ (∀ (c t el : Term) (env : Map Ty) (tc : TaggedTerm Ty) (ec : Map Ty)
       (e : List String),
       Term.tag c env = .ok (tc, ec) →
       Term.tag t env = .error e →
       Term.tag (.If c t el) env = .error e)
  ∧ (∀ (c t el : Term) (env : Map Ty) (tc : TaggedTerm Ty) (ec : Map Ty)
       (tt : TaggedTerm Ty) (et : Map Ty) (e : List String),
       Term.tag c env = .ok (tc, ec) →
       Term.tag t env = .ok (tt, et) →
       Term.tag el env = .error e →
       Term.tag (.If c t el) env = .error e)
  ∧ (∀ (cond : Term) (body : Block) (env : Map Ty) (e : List String),
       Term.tag cond env = .error e →
       Term.tag (.While cond body) env = .error e)
  ∧ (∀ (cond : Term) (body : Block) (env : Map Ty) (tc : TaggedTerm Ty)
       (ec : Map Ty) (e : List String),
       Term.tag cond env = .ok (tc, ec) →
       tc.get_tag = Ty.I32Ty →
       Block.tag body env = .error e →
       Term.tag (.While cond body) env = .error e)
  ∧ (∀ (s : Statement) (env : Map Ty) (e : List String),
       Statement.tag s env = .error e →
       Term.tag (.Stmt s) env = .error e)
  ∧ (∀ (term : Term) (env : Map Ty) (e : List String),
       Term.tag term env = .error e →
       Statement.tag (.TermSemicolon term) env = .error e)
  ∧ (∀ (name : String) (term : Term) (env : Map Ty) (e : List String),
       Term.tag term env = .error e →
       Statement.tag (.LetStmt name term) env = .error e)
  ∧ (∀ (name : String) (term : Term) (env : Map Ty) (e : List String),
       Term.tag term env = .error e →
       Statement.tag (.LetMut name term) env = .error e)
  ∧ (∀ (name : String) (term : Term) (env : Map Ty) (e : List String),
       Term.tag term env = .error e →
       Statement.tag (.Mutate name term) env = .error e)
  ∧ (∀ (s : Statement) (rest : List Statement) (endTerm : Option Term)
       (env : Map Ty) (e : List String),
       Statement.tag s env = .error e →
       Block.tag (.mk (s :: rest) endTerm) env = .error e)
  ∧ (∀ (stmts : List Statement) (t : Term) (env : Map Ty)
       (tss : List (TaggedStatement Ty)) (env1 : Map Ty) (e : List String),
       Statement.tagStmts stmts env = .ok (tss, env1) →
       Term.tag t env1 = .error e →
       Block.tag (.mk stmts (some t)) env = .error e)
  ∧ (∀ (p : Program) (env : Map Ty) (e : List String),
       Block.tag p.main env = .error e →
       Program.tag p env = .error e) := by
  refine ⟨?_, ?_, ?_, ?_, ?_, ?_, ?_, ?_, ?_, ?_, ?_, ?_, ?_, ?_, ?_, ?_, ?_⟩
  · intro left op right env e h
    rw [Term.tag, h]
  · intro left op right env tl el e hl hr
    rw [Term.tag, hl, hr]
  · intro func args env e h
    rw [Term.tag, h]
  · intro block env e h
    rw [Term.tag, h]
  · intro c t el env e h
    rw [Term.tag, h]
  · intro c t el env tc ec e hc ht
    rw [Term.tag, hc, ht]
  · intro c t el env tc ec tt et e hc ht hel
    rw [Term.tag, hc, ht, hel]
  · intro cond body env e h
    rw [Term.tag, h]
  · intro cond body env tc ec e hc htag hb
    rw [Term.tag, hc]
    simp only [htag]
    rw [if_neg (by simp), hb]
  · intro s env e h
    rw [Term.tag, h]
  · intro term env e h
    rw [Statement.tag, h]
  · intro name term env e h
    rw [Statement.tag, h]
  · intro name term env e h
    rw [Statement.tag, h]
  · intro name term env e h
    rw [Statement.tag, h]
  · intro s rest endTerm env e h
    rw [Block.tag, Statement.tagStmts, h]
  · intro stmts t env tss env1 e hs ht
    rw [Block.tag, hs]
    simp only
    rw [Block.tagEnd, ht]
  · intro p env e h
    rw [Program.tag, h]

/-- C5 witness: concrete failures — the failing sub-term `u` (an
undeclared variable) makes each enclosing construct fail with exactly
the sub-computation's single diagnostic. -/
theorem claim_C5_witness :
    Term.tag (.InfixTerm (.Var "u") ⟨"+"⟩ (.Literal 1)) ([] : Map Ty) =
      .error [undeclaredVariableMsg "u"]
  ∧ Term.tag (.InfixTerm (.Literal 1) ⟨"+"⟩ (.Var "u")) ([] : Map Ty) =
      .error [undeclaredVariableMsg "u"]
  ∧ Term.tag (.Call ⟨"g"⟩ []) ([] : Map Ty) =
      .error [undeclaredFunctionMsg "g"]
  ∧ Term.tag (.Scope (.mk [] (some (.Var "u")))) ([] : Map Ty) =
      .error [undeclaredVariableMsg "u"]
  ∧ Term.tag (.If (.Var "u") (.Literal 1) (.Literal 2)) ([] : Map Ty) =
      .error [undeclaredVariableMsg "u"]
  ∧ Term.tag (.If (.Literal 1) (.Var "u") (.Literal 2)) ([] : Map Ty) =
      .error [undeclaredVariableMsg "u"]
  ∧ Term.tag (.If (.Literal 1) (.Literal 2) (.Var "u")) ([] : Map Ty) =
      .error [undeclaredVariableMsg "u"]
  ∧ Term.tag (.While (.Var "u") (.mk [] none)) ([] : Map Ty) =
      .error [undeclaredVariableMsg "u"]
  ∧ Term.tag (.While (.Literal 1) (.mk [] (some (.Var "u")))) ([] : Map Ty) =
      .error [undeclaredVariableMsg "u"]
  ∧ Term.tag (.Stmt (.Mutate "x" (.Var "u"))) ([] : Map Ty) =
      .error [undeclaredVariableMsg "u"]
  ∧ Statement.tag (.TermSemicolon (.Var "u")) ([] : Map Ty) =
      .error [undeclaredVariableMsg "u"]
  ∧ Statement.tag (.LetStmt "x" (.Var "u")) ([] : Map Ty) =
      .error [undeclaredVariableMsg "u"]
  ∧ Statement.tag (.LetMut "x" (.Var "u")) ([] : Map Ty) =
      .error [undeclaredVariableMsg "u"]
  ∧ Statement.tag (.Mutate "x" (.Var "u")) ([] : Map Ty) =
      .error [undeclaredVariableMsg "u"]
  ∧ Block.tag (.mk [.TermSemicolon (.Var "u")] none) ([] : Map Ty) =
      .error [undeclaredVariableMsg "u"]
  ∧ Block.tag (.mk [] (some (.Var "u"))) ([] : Map Ty) =
      .error [undeclaredVariableMsg "u"]
  ∧ Program.tag ⟨.mk [] (some (.Var "u"))⟩ ([] : Map Ty) =
      .error [undeclaredVariableMsg "u"] := by
  obtain ⟨p1, p2, p3, p4, p5, p6, p7, p8, p9, p10, p11, p12, p13, p14,
    p15, p16, p17⟩ := claim_C5
  refine ⟨p1 _ _ _ _ _ rfl, p2 _ _ _ _ _ _ _ rfl rfl, p3 _ _ _ _ rfl,
    p4 _ _ _ rfl, p5 _ _ _ _ _ rfl, p6 _ _ _ _ _ _ _ rfl rfl,
    p7 _ _ _ _ _ _ _ _ _ rfl rfl rfl, p8 _ _ _ _ rfl,
    p9 _ _ _ _ _ _ rfl rfl rfl, p10 _ _ _ rfl, p11 _ _ _ rfl,
    p12 _ _ _ _ rfl, p13 _ _ _ _ rfl, p14 _ _ _ _ rfl, p15 _ _ _ _ _ rfl,
    p16 _ _ _ _ _ _ rfl rfl, p17 _ _ _ rfl⟩

/-- C6 counterexample: the claim says get-tag never panics "including
get-tag on a statement-wrapper term node under the Position payload",
but the `Stmt` arm of `impl Tagged<Position> for TaggedTerm<Position>`
in the source is `unreachable!()` — a panic, modelled as `none` — so on
this concrete statement-wrapper node the operation does not succeed. -/
theorem claim_C6_counterexample :
    TaggedTerm.get_tagPos
        (.Stmt (.ExternDecl ⟨1, 1⟩ "f" Ty.I32Ty)) = none := rfl

/-- C6 (amended): get-tag and untag are pure total operations needing no
environment for every tagged node of every category under both payloads,
with one exception forced by the counterexample — get-tag on a
statement-wrapper term node under the Position payload panics (the
wrapper stores no tag and no position can be fabricated); under the Type
payload the same node yields the "Unit" enumeration, and get-tag under
Position succeeds on every non-wrapper node, returning the stored tag. -/
theorem claim_C6_amended :
    (∀ t : TaggedTerm Position,
       t.get_tagPos = none ↔ ∃ s, t = TaggedTerm.Stmt s)
  ∧ (∀ t : TaggedTerm Position,
       (∀ s, t ≠ TaggedTerm.Stmt s) → ∃ p, t.get_tagPos = some p)
  ∧ (∀ s : TaggedStatement Ty,
       TaggedTerm.get_tag (.Stmt s) = .Enum unitEnum) := by
  refine ⟨?_, ?_, fun s => rfl⟩
  · intro t
    cases t <;> simp [TaggedTerm.get_tagPos]
  · intro t hne
    cases t with
    | Stmt s => exact absurd rfl (hne s)
    | Literal tag i => exact ⟨tag, rfl⟩
    | Var tag name => exact ⟨tag, rfl⟩
    | InfixTerm tag l op r => exact ⟨tag, rfl⟩
    | Call tag f as => exact ⟨tag, rfl⟩
    | Scope tag b => exact ⟨tag, rfl⟩
    | If tag c t e => exact ⟨tag, rfl⟩
    | While tag c b => exact ⟨tag, rfl⟩

/-- C6 witness: the amended theorem's second part applied at a concrete
non-wrapper node. -/
theorem claim_C6_amended_witness :
    ∃ p, TaggedTerm.get_tagPos (.Literal ⟨3, 4⟩ 7) = some p :=
  claim_C6_amended.2.1 (.Literal ⟨3, 4⟩ 7) (fun s h => by cases h)

/-- Helper: when every argument tags successfully, the argument loop
never aborts; it returns some tagged-argument list together with the
input errors extended by exactly one `ArgumentTypeMismatch` message per
mismatching position, in argument order. -/
theorem tagArgsLoop_all_ok :
    ∀ (args : List Term) (expected : List Ty) (env : Map Ty)
      (tas : List (TaggedTerm Ty)) (h : Bool)
      (acc : List (TaggedTerm Ty)) (errs : List String),
      Term.tagArgsAll args env = some tas →
      expected.length = args.length →
      ∃ ta, Term.tagArgsLoop expected args env h acc errs =
        .ok (ta, errs ++ (mismatchedPairs expected tas).map
          (fun p => argumentTypeMismatchMsg p.1 p.2)) := by
  intro args
  induction args with
  | nil =>
      intro expected env tas h acc errs hall hlen
      rw [Term.tagArgsAll] at hall
      simp only [Option.some.injEq] at hall
      subst hall
      cases expected with
      | nil =>
          refine ⟨acc, ?_⟩
          rw [Term.tagArgsLoop]
          · simp [mismatchedPairs]
          · intro e er a ar h1 h2; exact absurd h1 (by simp)
      | cons exp expRest => simp at hlen
  | cons a rest ih =>
      intro expected env tas h acc errs hall hlen
      cases expected with
      | nil => simp at hlen
      | cons exp expRest =>
          rw [Term.tagArgsAll] at hall
          cases ht : Term.tag a env with
          | error e => rw [ht] at hall; exact absurd hall (by simp)
          | ok p =>
              obtain ⟨ta0, env0⟩ := p
              rw [ht] at hall
              simp only at hall
              cases hrest : Term.tagArgsAll rest env with
              | none => rw [hrest] at hall; exact absurd hall (by simp)
              | some tas' =>
                  rw [hrest] at hall
                  simp only [Option.some.injEq] at hall
                  subst hall
                  have hlen' : expRest.length = rest.length := by
                    simpa using hlen
                  rw [Term.tagArgsLoop, ht]
                  simp only
                  by_cases hmis : exp = ta0.get_tag
                  · rw [if_neg (by simp [hmis])]
                    obtain ⟨ta, hloop⟩ := ih expRest env tas' h
                      (if h then acc else acc ++ [ta0]) errs hrest hlen'
                    refine ⟨ta, ?_⟩
                    rw [hloop]
                    rw [mismatchedPairs, if_neg (by simp [hmis])]
                  · rw [if_pos (by simp [hmis])]
                    obtain ⟨ta, hloop⟩ := ih expRest env tas' true
                      (if h then acc else acc ++ [ta0])
                      (errs ++ [argumentTypeMismatchMsg exp ta0.get_tag])
                      hrest hlen'
                    refine ⟨ta, ?_⟩
                    rw [hloop]
                    rw [mismatchedPairs, if_pos (by simp [hmis])]
                    simp

/-- Helper: when every argument tags successfully and no position
mismatches, the argument loop (entered with `has_error = false`) returns
the accumulated list extended by all tagged arguments and the input
errors unchanged. -/
theorem tagArgsLoop_no_mismatch :
    ∀ (args : List Term) (expected : List Ty) (env : Map Ty)
      (tas acc : List (TaggedTerm Ty)) (errs : List String),
      Term.tagArgsAll args env = some tas →
      expected.length = args.length →
      mismatchedPairs expected tas = [] →
      Term.tagArgsLoop expected args env false acc errs =
        .ok (acc ++ tas, errs) := by
  intro args
  induction args with
  | nil =>
      intro expected env tas acc errs hall hlen hmis
      rw [Term.tagArgsAll] at hall
      simp only [Option.some.injEq] at hall
      subst hall
      cases expected with
      | nil =>
          rw [Term.tagArgsLoop]
          · simp
          · intro e er a ar h1 h2; exact absurd h1 (by simp)
      | cons exp expRest => simp at hlen
  | cons a rest ih =>
      intro expected env tas acc errs hall hlen hmis
      cases expected with
      | nil => simp at hlen
      | cons exp expRest =>
          rw [Term.tagArgsAll] at hall
          cases ht : Term.tag a env with
          | error e => rw [ht] at hall; exact absurd hall (by simp)
          | ok p =>
              obtain ⟨ta0, env0⟩ := p
              rw [ht] at hall
              simp only at hall
              cases hrest : Term.tagArgsAll rest env with
              | none => rw [hrest] at hall; exact absurd hall (by simp)
              | some tas' =>
                  rw [hrest] at hall
                  simp only [Option.some.injEq] at hall
                  subst hall
                  have hlen' : expRest.length = rest.length := by
                    simpa using hlen
                  rw [mismatchedPairs] at hmis
                  by_cases heq : exp = ta0.get_tag
                  · rw [if_neg (by simp [heq])] at hmis
                    rw [Term.tagArgsLoop, ht]
                    simp only
                    rw [if_neg (by simp [heq])]
                    have hred :
                        (if (false : Bool) = true then acc else acc ++ [ta0]) =
                          acc ++ [ta0] := rfl
                    rw [hred,
                      ih expRest env tas' (acc ++ [ta0]) errs hrest hlen' hmis]
                    simp
                  · rw [if_pos (by simp [heq])] at hmis
                    exact absurd hmis (by simp)

/-- C2: for a call whose callee resolves to a function type, whose arity
matches, and whose every argument type-checks individually, checking
returns exactly one `ArgumentTypeMismatch` diagnostic per argument
position whose inferred type differs from the declared positional
parameter type, in argument order; the call succeeds — tagged with the
callee's declared return type — exactly when there are zero mismatching
positions. -/
theorem claim_C2 :
    ∀ (func : FunctionCall) (args : List Term) (env : Map Ty)
      (expected : List Ty) (ret : Ty) (tas : List (TaggedTerm Ty)),
      Map.get env func.name = some (.FunctionTy expected ret) →
      expected.length = args.length →
      Term.tagArgsAll args env = some tas →
      Term.tag (.Call func args) env =
        (if mismatchedPairs expected tas = [] then
          .ok (.Call ret ⟨.FunctionTy expected ret, func.name⟩ tas, env)
        else
          .error ((mismatchedPairs expected tas).map
            (fun p => argumentTypeMismatchMsg p.1 p.2))) := by
  intro func args env expected ret tas hget hlen hall
  have hf : FunctionCall.tag func env =
      .ok ⟨.FunctionTy expected ret, func.name⟩ := by
    rw [FunctionCall.tag, hget]
  rw [Term.tag, hf]
  simp only
  rw [if_pos hlen]
  by_cases hmis : mismatchedPairs expected tas = []
  · rw [if_pos hmis]
    rw [tagArgsLoop_no_mismatch args expected env tas [] [] hall hlen hmis]
    simp only [List.nil_append, List.length_nil]
    rw [if_pos True.intro]
  · rw [if_neg hmis]
    obtain ⟨ta, hloop⟩ := tagArgsLoop_all_ok args expected env tas false [] []
      hall hlen
    rw [hloop]
    simp only [List.nil_append]
    rw [if_neg (by simp [hmis])]

/-- C2 witness: `f` declared with parameters `(I32, I32)` — the call
`f(1, 2)` has zero mismatches and succeeds tagged `I32`, while
`f(b, 1)` with `b` of an enumeration type reports exactly one
`ArgumentTypeMismatch`, for position 1 only. -/
theorem claim_C2_witness :
    Term.tag (.Call ⟨"f"⟩ [.Literal 1, .Literal 2])
        ([("f", Ty.FunctionTy [Ty.I32Ty, Ty.I32Ty] Ty.I32Ty)] : Map Ty) =
      .ok (.Call Ty.I32Ty
             ⟨Ty.FunctionTy [Ty.I32Ty, Ty.I32Ty] Ty.I32Ty, "f"⟩
             [.Literal Ty.I32Ty 1, .Literal Ty.I32Ty 2],
           [("f", Ty.FunctionTy [Ty.I32Ty, Ty.I32Ty] Ty.I32Ty)])
  ∧ Term.tag (.Call ⟨"f"⟩ [.Var "b", .Literal 1])
        ([("b", Ty.Enum ⟨"Bool", ["true", "false"]⟩),
          ("f", Ty.FunctionTy [Ty.I32Ty, Ty.I32Ty] Ty.I32Ty)] : Map Ty) =
      .error [argumentTypeMismatchMsg Ty.I32Ty
                (Ty.Enum ⟨"Bool", ["true", "false"]⟩)] := by
  constructor
  · have h := claim_C2 ⟨"f"⟩ [.Literal 1, .Literal 2]
      [("f", Ty.FunctionTy [Ty.I32Ty, Ty.I32Ty] Ty.I32Ty)]
      [Ty.I32Ty, Ty.I32Ty] Ty.I32Ty
      [.Literal Ty.I32Ty 1, .Literal Ty.I32Ty 2] rfl rfl rfl
    simpa using h
  · have h := claim_C2 ⟨"f"⟩ [.Var "b", .Literal 1]
      [("b", Ty.Enum ⟨"Bool", ["true", "false"]⟩),
       ("f", Ty.FunctionTy [Ty.I32Ty, Ty.I32Ty] Ty.I32Ty)]
      [Ty.I32Ty, Ty.I32Ty] Ty.I32Ty
      [.Var (Ty.Enum ⟨"Bool", ["true", "false"]⟩) "b", .Literal Ty.I32Ty 1]
      rfl rfl rfl
    simpa [mismatchedPairs, TaggedTerm.get_tag] using h

/-- Helper: erasure distributes over list append. -/
theorem untagList_append {Tag : Type} (xs ys : List (TaggedTerm Tag)) :
    TaggedTerm.untagList (xs ++ ys) =
      TaggedTerm.untagList xs ++ TaggedTerm.untagList ys := by
  induction xs with
  | nil => rfl
  | cons x xs ih => simp [TaggedTerm.untagList, ih]

/-- Helper: the argument loop only ever appends to its error
accumulator — whatever it returns extends the errors it was given. -/
theorem tagArgsLoop_errs_prefix :
    ∀ (args : List Term) (expected : List Ty) (env : Map Ty) (h : Bool)
      (acc : List (TaggedTerm Ty)) (errs : List String)
      (ta : List (TaggedTerm Ty)) (out : List String),
      Term.tagArgsLoop expected args env h acc errs = .ok (ta, out) →
      ∃ ext, out = errs ++ ext := by
  intro args
  induction args with
  | nil =>
      intro expected env h acc errs ta out hl
      cases expected with
      | nil =>
          rw [Term.tagArgsLoop] at hl
          · simp only [Except.ok.injEq, Prod.mk.injEq] at hl
            exact ⟨[], by simp [hl.2]⟩
          · intro e er a ar h1 h2; exact absurd h1 (by simp)
      | cons e er =>
          rw [Term.tagArgsLoop] at hl
          · simp only [Except.ok.injEq, Prod.mk.injEq] at hl
            exact ⟨[], by simp [hl.2]⟩
          · intro e2 er2 a ar h1 h2; exact absurd h2 (by simp)
  | cons a rest ih =>
      intro expected env h acc errs ta out hl
      cases expected with
      | nil =>
          rw [Term.tagArgsLoop] at hl
          · simp only [Except.ok.injEq, Prod.mk.injEq] at hl
            exact ⟨[], by simp [hl.2]⟩
          · intro e er a2 ar h1 h2; exact absurd h1 (by simp)
      | cons exp expRest =>
          rw [Term.tagArgsLoop] at hl
          cases ht : Term.tag a env with
          | error e2 => rw [ht] at hl; exact absurd hl (by simp)
          | ok p =>
              obtain ⟨ta0, env0⟩ := p
              rw [ht] at hl
              simp only at hl
              by_cases hmis : exp = ta0.get_tag
              · rw [if_neg (by simp [hmis])] at hl
                exact ih expRest env h _ errs ta out hl
              · rw [if_pos (by simp [hmis])] at hl
                obtain ⟨ext, hext⟩ := ih expRest env true _
                  (errs ++ [argumentTypeMismatchMsg exp ta0.get_tag]) ta out hl
                exact ⟨argumentTypeMismatchMsg exp ta0.get_tag :: ext,
                  by simp [hext]⟩

/-- Helper: a successfully resolved call head erases back to the bare
head (only the name is stored). -/
theorem untag_tag_fc :
    ∀ (fc : FunctionCall) (env : Map Ty) (tf : TaggedFunctionCall Ty),
      FunctionCall.tag fc env = .ok tf → tf.untag = fc := by
  intro fc env tf h
  rw [FunctionCall.tag] at h
  cases hg : Map.get env fc.name with
  | none => rw [hg] at h; exact absurd h (by simp)
  | some ty =>
      rw [hg] at h
      cases ty with
      | FunctionTy a r =>
          simp only [Except.ok.injEq] at h
          rw [← h]
          rfl
      | Forbidden => exact absurd h (by simp)
      | I32Ty => exact absurd h (by simp)
      | Enum en => exact absurd h (by simp)

/- The round-trip property, proved by mutual structural induction over
the bare tree: a successful checking pass yields a tagged tree whose
erasure is the original input, for terms, statements, statement lists,
blocks, and the call-argument loop. -/
mutual

theorem untag_tag_term :
    ∀ (t : Term) (env : Map Ty) (tt : TaggedTerm Ty) (env' : Map Ty),
      Term.tag t env = .ok (tt, env') → tt.untag = t
  | .Literal i, env, tt, env', h => by
      rw [Term.tag] at h
      simp only [Except.ok.injEq, Prod.mk.injEq] at h
      rw [← h.1]
      rfl
  | .Var s, env, tt, env', h => by
      rw [Term.tag] at h
      cases hg : Map.get env s with
      | none => rw [hg] at h; exact absurd h (by simp)
      | some ty =>
          rw [hg] at h
          simp only [Except.ok.injEq, Prod.mk.injEq] at h
          rw [← h.1]
          rfl
  | .InfixTerm left op right, env, tt, env', h => by
      rw [Term.tag] at h
      cases hl : Term.tag left env with
      | error e => rw [hl] at h; exact absurd h (by simp)
      | ok pl =>
          obtain ⟨tl, el⟩ := pl
          rw [hl] at h
          simp only at h
          cases hr : Term.tag right env with
          | error e => rw [hr] at h; exact absurd h (by simp)
          | ok pr =>
              obtain ⟨tr, er⟩ := pr
              rw [hr] at h
              simp only at h
              split at h
              · simp only [Except.ok.injEq, Prod.mk.injEq] at h
                rw [← h.1]
                simp [TaggedTerm.untag, untag_tag_term left env tl el hl,
                  untag_tag_term right env tr er hr]
              · exact absurd h (by simp)
  | .Call func args, env, tt, env', h => by
      rw [Term.tag] at h
      cases hf : FunctionCall.tag func env with
      | error e => rw [hf] at h; exact absurd h (by simp)
      | ok tf =>
          rw [hf] at h
          simp only at h
          cases htag : tf.tag with
          | FunctionTy expected ret =>
              rw [htag] at h
              simp only at h
              by_cases harity : expected.length = args.length
              · rw [if_pos harity] at h
                cases hloop :
                    Term.tagArgsLoop expected args env false [] [] with
                | error e => rw [hloop] at h; exact absurd h (by simp)
                | ok p =>
                    obtain ⟨tagged_args, errors⟩ := p
                    rw [hloop] at h
                    simp only at h
                    by_cases herr : errors.length = 0
                    · rw [if_pos herr] at h
                      simp only [Except.ok.injEq, Prod.mk.injEq] at h
                      rw [List.length_eq_zero.mp herr] at hloop
                      rw [← h.1]
                      simp only [TaggedTerm.untag]
                      rw [untag_tag_fc func env tf hf,
                        untag_tagArgsLoop expected args env [] tagged_args
                          harity hloop]
                      simp [TaggedTerm.untagList]
                    · rw [if_neg herr] at h; exact absurd h (by simp)
              · rw [if_neg harity] at h; exact absurd h (by simp)
          | Forbidden => rw [htag] at h; exact absurd h (by simp)
          | I32Ty => rw [htag] at h; exact absurd h (by simp)
          | Enum en => rw [htag] at h; exact absurd h (by simp)
  | .Scope block, env, tt, env', h => by
      rw [Term.tag] at h
      cases hb : Block.tag block env with
      | error e => rw [hb] at h; exact absurd h (by simp)
      | ok p =>
          obtain ⟨tb, env1⟩ := p
          rw [hb] at h
          simp only [Except.ok.injEq, Prod.mk.injEq] at h
          rw [← h.1]
          simp [TaggedTerm.untag, untag_tag_block block env tb env1 hb]
  | .If c t e, env, tt, env', h => by
      rw [Term.tag] at h
      cases hc : Term.tag c env with
      | error e2 => rw [hc] at h; exact absurd h (by simp)
      | ok pc =>
          obtain ⟨tc, ec⟩ := pc
          rw [hc] at h
          simp only at h
          cases hth : Term.tag t env with
          | error e2 => rw [hth] at h; exact absurd h (by simp)
          | ok pt =>
              obtain ⟨tth, et⟩ := pt
              rw [hth] at h
              simp only at h
              cases hel : Term.tag e env with
              | error e2 => rw [hel] at h; exact absurd h (by simp)
              | ok pe =>
                  obtain ⟨tel, ee⟩ := pe
                  rw [hel] at h
                  simp only at h
                  split at h
                  · simp only [Except.ok.injEq, Prod.mk.injEq] at h
                    rw [← h.1]
                    simp [TaggedTerm.untag, untag_tag_term c env tc ec hc,
                      untag_tag_term t env tth et hth,
                      untag_tag_term e env tel ee hel]
                  · exact absurd h (by simp)
  | .While cond block, env, tt, env', h => by
      rw [Term.tag] at h
      cases hc : Term.tag cond env with
      | error e => rw [hc] at h; exact absurd h (by simp)
      | ok p =>
          obtain ⟨tc, ec⟩ := p
          rw [hc] at h
          simp only at h
          split at h
          · exact absurd h (by simp)
          · cases hb : Block.tag block env with
            | error e => rw [hb] at h; exact absurd h (by simp)
            | ok pb =>
                obtain ⟨tb, eb⟩ := pb
                rw [hb] at h
                simp only [Except.ok.injEq, Prod.mk.injEq] at h
                rw [← h.1]
                simp [TaggedTerm.untag, untag_tag_term cond env tc ec hc,
                  untag_tag_block block env tb eb hb]
  | .Stmt stmt, env, tt, env', h => by
      rw [Term.tag] at h
      cases hs : Statement.tag stmt env with
      | error e => rw [hs] at h; exact absurd h (by simp)
      | ok p =>
          obtain ⟨ts, env1⟩ := p
          rw [hs] at h
          simp only [Except.ok.injEq, Prod.mk.injEq] at h
          rw [← h.1]
          simp [TaggedTerm.untag, untag_tag_stmt stmt env ts env1 hs]

theorem untag_tagArgsLoop :
    ∀ (expected : List Ty) (args : List Term) (env : Map Ty)
      (acc ta : List (TaggedTerm Ty)),
      expected.length = args.length →
      Term.tagArgsLoop expected args env false acc [] = .ok (ta, []) →
      TaggedTerm.untagList ta = TaggedTerm.untagList acc ++ args
  | [], [], env, acc, ta, hlen, h => by
      rw [Term.tagArgsLoop] at h
      · simp only [Except.ok.injEq, Prod.mk.injEq] at h
        rw [← h.1]
        simp
      · intro e er a ar h1 h2; exact absurd h1 (by simp)
  | [], a :: ar, env, acc, ta, hlen, h => by simp at hlen
  | e :: er, [], env, acc, ta, hlen, h => by simp at hlen
  | exp :: expRest, a :: actualRest, env, acc, ta, hlen, h => by
      rw [Term.tagArgsLoop] at h
      cases ht : Term.tag a env with
      | error e2 => rw [ht] at h; exact absurd h (by simp)
      | ok p =>
          obtain ⟨ta0, env0⟩ := p
          rw [ht] at h
          simp only at h
          by_cases hmis : exp = ta0.get_tag
          · rw [if_neg (by simp [hmis])] at h
            have hred :
                (if (false : Bool) = true then acc else acc ++ [ta0]) =
                  acc ++ [ta0] := rfl
            rw [hred] at h
            rw [untag_tagArgsLoop expRest actualRest env (acc ++ [ta0]) ta
              (by simpa using hlen) h]
            rw [untagList_append]
            simp [TaggedTerm.untagList, untag_tag_term a env ta0 env0 ht]
          · rw [if_pos (by simp [hmis])] at h
            obtain ⟨ext, hext⟩ := tagArgsLoop_errs_prefix actualRest expRest
              env true _ _ ta [] h
            exact absurd hext (by simp)

theorem untag_tag_stmt :
    ∀ (s : Statement) (env : Map Ty) (ts : TaggedStatement Ty)
      (env' : Map Ty),
      Statement.tag s env = .ok (ts, env') → ts.untag = s
  | .TermSemicolon term, env, ts, env', h => by
      rw [Statement.tag] at h
      cases ht : Term.tag term env with
      | error e => rw [ht] at h; exact absurd h (by simp)
      | ok p =>
          obtain ⟨tt, e1⟩ := p
          rw [ht] at h
          simp only [Except.ok.injEq, Prod.mk.injEq] at h
          rw [← h.1]
          simp [TaggedStatement.untag, untag_tag_term term env tt e1 ht]
  | .LetStmt name term, env, ts, env', h => by
      rw [Statement.tag] at h
      cases ht : Term.tag term env with
      | error e => rw [ht] at h; exact absurd h (by simp)
      | ok p =>
          obtain ⟨tt, e1⟩ := p
          rw [ht] at h
          simp only [Except.ok.injEq, Prod.mk.injEq] at h
          rw [← h.1]
          simp [TaggedStatement.untag, untag_tag_term term env tt e1 ht]
  | .LetMut name term, env, ts, env', h => by
      rw [Statement.tag] at h
      cases ht : Term.tag term env with
      | error e => rw [ht] at h; exact absurd h (by simp)
      | ok p =>
          obtain ⟨tt, e1⟩ := p
          rw [ht] at h
          simp only [Except.ok.injEq, Prod.mk.injEq] at h
          rw [← h.1]
          simp [TaggedStatement.untag, untag_tag_term term env tt e1 ht]
  | .Mutate name term, env, ts, env', h => by
      rw [Statement.tag] at h
      cases ht : Term.tag term env with
      | error e => rw [ht] at h; exact absurd h (by simp)
      | ok p =>
          obtain ⟨tt, e1⟩ := p
          rw [ht] at h
          simp only [Except.ok.injEq, Prod.mk.injEq] at h
          rw [← h.1]
          simp [TaggedStatement.untag, untag_tag_term term env tt e1 ht]
  | .ExternDecl name ty, env, ts, env', h => by
      rw [Statement.tag] at h
      simp only [Except.ok.injEq, Prod.mk.injEq] at h
      rw [← h.1]
      rfl

theorem untag_tagStmts :
    ∀ (stmts : List Statement) (env : Map Ty)
      (tss : List (TaggedStatement Ty)) (env' : Map Ty),
      Statement.tagStmts stmts env = .ok (tss, env') →
      TaggedStatement.untagStmts tss = stmts
  | [], env, tss, env', h => by
      rw [Statement.tagStmts] at h
      simp only [Except.ok.injEq, Prod.mk.injEq] at h
      rw [← h.1]
      rfl
  | s :: rest, env, tss, env', h => by
      rw [Statement.tagStmts] at h
      cases hs : Statement.tag s env with
      | error e => rw [hs] at h; exact absurd h (by simp)
      | ok p =>
          obtain ⟨ts, env1⟩ := p
          rw [hs] at h
          simp only at h
          cases hr : Statement.tagStmts rest env1 with
          | error e => rw [hr] at h; exact absurd h (by simp)
          | ok q =>
              obtain ⟨tss', env2⟩ := q
              rw [hr] at h
              simp only [Except.ok.injEq, Prod.mk.injEq] at h
              rw [← h.1]
              simp [TaggedStatement.untagStmts,
                untag_tag_stmt s env ts env1 hs,
                untag_tagStmts rest env1 tss' env2 hr]

theorem untag_tag_block :
    ∀ (b : Block) (env : Map Ty) (tb : TaggedBlock Ty) (env' : Map Ty),
      Block.tag b env = .ok (tb, env') → tb.untag = b
  | .mk stmts endTerm, env, tb, env', h => by
      rw [Block.tag] at h
      cases hs : Statement.tagStmts stmts env with
      | error e => rw [hs] at h; exact absurd h (by simp)
      | ok p =>
          obtain ⟨tss, env1⟩ := p
          rw [hs] at h
          simp only at h
          cases endTerm with
          | none =>
              rw [Block.tagEnd] at h
              simp only [Except.ok.injEq, Prod.mk.injEq] at h
              rw [← h.1]
              simp [TaggedBlock.untag, untag_tagStmts stmts env tss env1 hs]
          | some term =>
              rw [Block.tagEnd] at h
              cases ht : Term.tag term env1 with
              | error e => rw [ht] at h; exact absurd h (by simp)
              | ok q =>
                  obtain ⟨te, env2⟩ := q
                  rw [ht] at h
                  simp only [Except.ok.injEq, Prod.mk.injEq] at h
                  rw [← h.1]
                  simp [TaggedBlock.untag,
                    untag_tagStmts stmts env tss env1 hs,
                    untag_tag_term term env1 te env2 ht]

end

/-- C1: the round-trip law — for every bare tree of every category
(term, statement, block, program, function-call head) that type-checks
successfully with tag payload `Type`, erasing the tags of the result
reproduces a tree equal to the original bare input. -/
theorem claim_C1 :
    (∀ (t : Term) (env : Map Ty) (tt : TaggedTerm Ty) (env' : Map Ty),
       Term.tag t env = .ok (tt, env') → tt.untag = t)
  ∧ (∀ (s : Statement) (env : Map Ty) (ts : TaggedStatement Ty)
       (env' : Map Ty),
       Statement.tag s env = .ok (ts, env') → ts.untag = s)
  ∧ (∀ (b : Block) (env : Map Ty) (tb : TaggedBlock Ty) (env' : Map Ty),
       Block.tag b env = .ok (tb, env') → tb.untag = b)
  ∧ (∀ (p : Program) (env : Map Ty) (tp : TaggedProgram Ty)
       (env' : Map Ty),
       Program.tag p env = .ok (tp, env') → tp.untag = p)
  ∧ (∀ (fc : FunctionCall) (env : Map Ty) (tf : TaggedFunctionCall Ty),
       FunctionCall.tag fc env = .ok tf → tf.untag = fc) := by
  refine ⟨untag_tag_term, untag_tag_stmt, untag_tag_block, ?_, untag_tag_fc⟩
  intro p env tp env' h
  rw [Program.tag] at h
  cases hb : Block.tag p.main env with
  | error e => rw [hb] at h; exact absurd h (by simp)
  | ok q =>
      obtain ⟨tb, env1⟩ := q
      rw [hb] at h
      simp only [Except.ok.injEq, Prod.mk.injEq] at h
      rw [← h.1]
      simp [TaggedProgram.untag, untag_tag_block p.main env tb env1 hb]

/-- C1 witness: the program `{ let x = 1; x + 2 }` type-checks in the
empty environment and its tagged result erases back to the original
program. -/
theorem claim_C1_witness :
    TaggedProgram.untag
        (⟨Ty.Forbidden,
          ⟨Ty.I32Ty, [.LetStmt Ty.Forbidden "x" (.Literal Ty.I32Ty 1)],
           some (.InfixTerm Ty.I32Ty (.Var Ty.I32Ty "x") ⟨"+"⟩
             (.Literal Ty.I32Ty 2))⟩⟩ : TaggedProgram Ty) =
      ⟨.mk [.LetStmt "x" (.Literal 1)]
        (some (.InfixTerm (.Var "x") ⟨"+"⟩ (.Literal 2)))⟩ :=
  claim_C1.2.2.2.1
    ⟨.mk [.LetStmt "x" (.Literal 1)]
      (some (.InfixTerm (.Var "x") ⟨"+"⟩ (.Literal 2)))⟩
    []
    ⟨Ty.Forbidden,
      ⟨Ty.I32Ty, [.LetStmt Ty.Forbidden "x" (.Literal Ty.I32Ty 1)],
       some (.InfixTerm Ty.I32Ty (.Var Ty.I32Ty "x") ⟨"+"⟩
         (.Literal Ty.I32Ty 2))⟩⟩
    [("x", Ty.I32Ty)]
    rfl

end Ende
